import Mathlib

/-!
Shallow embedding of the `LemmingsFHE` Solidity contract
(`contracts/Lemmings_FHE.sol`), the batch lifecycle and verified
decryption-callback protocol.

Modelling conventions:
* addresses, `uint256` values and ciphertext handles (`euint32`) are `Nat`;
  ciphertext handles are opaque to the contract, and `toBytes32` on a handle
  is modelled as the identity injection into the hash-input word list;
* Solidity `mapping`s are total functions returning the zero default, except
  `decryptionContexts`, which is an association list read through a
  default-on-miss lookup (so that "no context was ever recorded under an id"
  is expressible), and `lemmings`, whose `Option` layer records which keys
  were written while reads fall back to the zero struct exactly as a
  Solidity mapping does;
* `keccak256(abi.encode(cts, address(this)))` is modelled symbolically by
  the free constructor `HashVal.keccak cts addr`: distinct inputs give
  distinct hashes (ideal collision resistance) and no hash equals the
  `bytes32(0)` default `HashVal.zero`;
* `FHE.checkSignatures` is an opaque external verification primitive: its
  verdict enters the model as the adversarially chosen `proofOk` argument of
  the callback, reverting with `InvalidProof` when false;
* `FHE.requestDecryption` returns an oracle-assigned request id: the id
  enters the model as an argument of the request operation;
* `block.timestamp` and `msg.sender` are per-operation arguments;
* a revert aborts the transaction and rolls every write back: an operation
  returns `Except Err State`, and the transaction-level `applyOp` keeps the
  pre-state on error exactly as the EVM does;
* `bytes memory cleartexts` is a byte list; `cleartexts.slice(i, 32)` is a
  bounds-checked slice reverting (generic revert, modelled as
  `Err.SliceOutOfBounds`) when the requested range exceeds the length;
  `abi.decode(_, (uint256))` on a 32-byte slice is big-endian word decoding.
-/

namespace LemmingsFHE

/-- Errors of the contract.  The first nine are the `error` declarations of
the source.  `InvalidProof` stands for the revert raised inside the opaque
`FHE.checkSignatures` primitive and `SliceOutOfBounds` for the builtin
revert of an out-of-range `slice`.  `UnknownRequest` and
`MalformedCleartexts` are error names used by the specification only; the
code never raises them (they are needed to state, and refute, claims about
them). -/
inductive Err where
  | NotOwner
  | NotProvider
  | PausedState
  | CooldownActive
  | BatchClosedOrInvalid
  | ReplayAttempt
  | StateMismatch
  | InvalidBatchId
  | InvalidLemmingId
  | InvalidProof
  | SliceOutOfBounds
  | UnknownRequest
  | MalformedCleartexts
deriving DecidableEq, Repr

/-- A `bytes32` value that is either the zero default or a symbolic
`keccak256(abi.encode(cts, addr))` image. -/
inductive HashVal where
  | zero
  | keccak (cts : List Nat) (addr : Nat)
deriving DecidableEq, Repr

/-- `struct Lemming { euint32 ability; euint32 x; euint32 y; }` with opaque
handles as `Nat`. -/
structure Lemming where
  ability : Nat
  x : Nat
  y : Nat
deriving DecidableEq, Repr

/-- `struct DecryptionContext { uint256 batchId; bytes32 stateHash; bool processed; }` -/
structure DecryptionContext where
  batchId : Nat
  stateHash : HashVal
  processed : Bool
deriving DecidableEq, Repr

/-- The zero value a Solidity mapping returns for a never-written
`DecryptionContext` key. -/
def defaultContext : DecryptionContext :=
  { batchId := 0, stateHash := .zero, processed := false }

/-- The zero value a Solidity mapping returns for a never-written `Lemming`
key. -/
def defaultLemming : Lemming := { ability := 0, x := 0, y := 0 }

/-- Durable contract storage.  `thisAddr` is `address(this)`, fixed at
deployment. -/
structure State where
  thisAddr : Nat
  owner : Nat
  isProvider : Nat → Bool
  paused : Bool
  cooldownSeconds : Nat
  lastSubmissionTime : Nat → Nat
  lastDecryptionRequestTime : Nat → Nat
  currentBatchId : Nat
  isBatchOpen : Nat → Bool
  decryptionContexts : List (Nat × DecryptionContext)
  lemmings : Nat → Nat → Option Lemming
  lemmingCountInBatch : Nat → Nat

/-- Point update of a map modelled as a function. -/
def upd {α : Type} (f : Nat → α) (k : Nat) (v : α) : Nat → α :=
  fun k' => if k' = k then v else f k'

/-- Point update of the two-level `lemmings` mapping. -/
def upd2 (f : Nat → Nat → Option Lemming) (b i : Nat) (v : Lemming) :
    Nat → Nat → Option Lemming :=
  upd f b (upd (f b) i (some v))

/-- Reading `decryptionContexts[requestId]`: a Solidity mapping read falls
back to the zero struct when the key was never written. -/
def getContext (s : State) (r : Nat) : DecryptionContext :=
  (s.decryptionContexts.lookup r).getD defaultContext

/-- Reading `lemmings[b][i]`: falls back to the zero struct. -/
def lemmingAt (s : State) (b i : Nat) : Lemming :=
  (s.lemmings b i).getD defaultLemming

/-- The word list built by the `for (i = 1; i <= n; i++)` loops of
`requestBatchDecryption` and `myCallback`: for each lemming id `1..n` in
ascending order, the three handles `ability, x, y` (via the identity
`toBytes32`). -/
def ctsUpTo (s : State) (b : Nat) : Nat → List Nat
  | 0 => []
  | n + 1 =>
      ctsUpTo s b n ++
        [(lemmingAt s b (n + 1)).ability, (lemmingAt s b (n + 1)).x,
          (lemmingAt s b (n + 1)).y]

/-- `_hashCiphertexts`: `keccak256(abi.encode(cts, address(this)))`,
symbolically. -/
def hashCiphertexts (s : State) (cts : List Nat) : HashVal :=
  .keccak cts s.thisAddr

/-- The constructor: `owner = msg.sender`, everything else zero. -/
def initState (deployer thisAddr : Nat) : State :=
  { thisAddr := thisAddr
    owner := deployer
    isProvider := fun _ => false
    paused := false
    cooldownSeconds := 0
    lastSubmissionTime := fun _ => 0
    lastDecryptionRequestTime := fun _ => 0
    currentBatchId := 0
    isBatchOpen := fun _ => false
    decryptionContexts := []
    lemmings := fun _ _ => none
    lemmingCountInBatch := fun _ => 0 }

/-- `transferOwnership(newOwner)`: `onlyOwner`, no pause guard. -/
def transferOwnership (s : State) (sender newOwner : Nat) : Except Err State :=
  if sender ≠ s.owner then .error .NotOwner
  else .ok { s with owner := newOwner }

/-- `addProvider(provider)`: `onlyOwner`, no pause guard. -/
def addProvider (s : State) (sender p : Nat) : Except Err State :=
  if sender ≠ s.owner then .error .NotOwner
  else .ok { s with isProvider := upd s.isProvider p true }

/-- `removeProvider(provider)`: `onlyOwner`, no pause guard; `delete`
restores the zero default `false`. -/
def removeProvider (s : State) (sender p : Nat) : Except Err State :=
  if sender ≠ s.owner then .error .NotOwner
  else .ok { s with isProvider := upd s.isProvider p false }

/-- `setPaused(_paused)`: `onlyOwner`; both branches store the argument. -/
def setPaused (s : State) (sender : Nat) (b : Bool) : Except Err State :=
  if sender ≠ s.owner then .error .NotOwner
  else .ok { s with paused := b }

/-- `setCooldownSeconds(newCooldownSeconds)`: `onlyOwner`, no pause guard. -/
def setCooldownSeconds (s : State) (sender n : Nat) : Except Err State :=
  if sender ≠ s.owner then .error .NotOwner
  else .ok { s with cooldownSeconds := n }

/-- `openBatch()`: `onlyOwner whenNotPaused`; increments `currentBatchId`
then opens the new id. -/
def openBatch (s : State) (sender : Nat) : Except Err State :=
  if sender ≠ s.owner then .error .NotOwner
  else if s.paused then .error .PausedState
  else
    .ok { s with
      currentBatchId := s.currentBatchId + 1
      isBatchOpen := upd s.isBatchOpen (s.currentBatchId + 1) true }

/-- `closeBatch(batchId)`: `onlyOwner` only — the source has no
`whenNotPaused` on it. -/
def closeBatch (s : State) (sender b : Nat) : Except Err State :=
  if sender ≠ s.owner then .error .NotOwner
  else if s.isBatchOpen b = false then .error .BatchClosedOrInvalid
  else .ok { s with isBatchOpen := upd s.isBatchOpen b false }

/-- `submitLemming(batchId, a, x, y)`: modifiers in source order
(`onlyProvider`, `whenNotPaused`, `respectCooldown` on
`lastSubmissionTime`), then the open-batch check, the `++count` id
assignment, the record write, and the timestamp update. -/
def submitLemming (s : State) (sender now batchId a x y : Nat) :
    Except Err State :=
  if s.isProvider sender = false then .error .NotProvider
  else if s.paused then .error .PausedState
  else if now < s.lastSubmissionTime sender + s.cooldownSeconds then
    .error .CooldownActive
  else if s.isBatchOpen batchId = false then .error .BatchClosedOrInvalid
  else
    let lemmingId := s.lemmingCountInBatch batchId + 1
    .ok { s with
      lemmingCountInBatch := upd s.lemmingCountInBatch batchId lemmingId
      lemmings := upd2 s.lemmings batchId lemmingId ⟨a, x, y⟩
      lastSubmissionTime := upd s.lastSubmissionTime sender now }

/-- `requestBatchDecryption(batchId)`: modifiers in source order
(`onlyOwner`, `whenNotPaused`, `respectCooldown` on
`lastDecryptionRequestTime`), the empty-batch check, the ciphertext walk,
the commitment, the oracle call returning `reqId`, the context record and
the timestamp update. -/
def requestBatchDecryption (s : State) (sender now batchId reqId : Nat) :
    Except Err State :=
  if sender ≠ s.owner then .error .NotOwner
  else if s.paused then .error .PausedState
  else if now < s.lastDecryptionRequestTime sender + s.cooldownSeconds then
    .error .CooldownActive
  else if s.lemmingCountInBatch batchId = 0 then .error .InvalidBatchId
  else
    let cts := ctsUpTo s batchId (s.lemmingCountInBatch batchId)
    let stateHash := hashCiphertexts s cts
    .ok { s with
      decryptionContexts :=
        (reqId, { batchId := batchId, stateHash := stateHash,
                  processed := false }) :: s.decryptionContexts
      lastDecryptionRequestTime := upd s.lastDecryptionRequestTime sender now }

/-- `cleartexts.slice(start, 32)`-style bounds-checked slice: reverts when
the requested range exceeds the byte length. -/
def sliceBytes (bs : List Nat) (start len : Nat) : Except Err (List Nat) :=
  if start + len ≤ bs.length then .ok ((bs.drop start).take len)
  else .error .SliceOutOfBounds

/-- `abi.decode(word, (uint256))` on a 32-byte big-endian word. -/
def decode32 (bs : List Nat) : Nat :=
  bs.foldl (fun acc b => acc * 256 + b) 0

/-- The decode loop of `myCallback`, reading three consecutive 32-byte
words per lemming starting at byte offset `idx`; the resulting triples are
the per-record rows `(abilities[i], xs[i], ys[i])` in ascending order. -/
def decodeFrom (cl : List Nat) (idx : Nat) : Nat → Except Err (List (Nat × Nat × Nat))
  | 0 => .ok []
  | n + 1 =>
      match sliceBytes cl idx 32 with
      | .error e => .error e
      | .ok wa =>
        match sliceBytes cl (idx + 32) 32 with
        | .error e => .error e
        | .ok wx =>
          match sliceBytes cl (idx + 64) 32 with
          | .error e => .error e
          | .ok wy =>
            match decodeFrom cl (idx + 96) n with
            | .error e => .error e
            | .ok rest => .ok ((decode32 wa, decode32 wx, decode32 wy) :: rest)

/-- `myCallback(requestId, cleartexts, proof)`: replay guard, state
verification (empty-batch check, commitment recomputation and comparison),
proof verification (`FHE.checkSignatures`, opaque verdict `proofOk`),
decode, and only then `processed = true` plus the result emission. -/
def myCallback (s : State) (reqId : Nat) (cl : List Nat) (proofOk : Bool) :
    Except Err (State × List (Nat × Nat × Nat)) :=
  let context := getContext s reqId
  if context.processed then .error .ReplayAttempt
  else
    let numLemmings := s.lemmingCountInBatch context.batchId
    if numLemmings = 0 then .error .InvalidBatchId
    else
      let currentCts := ctsUpTo s context.batchId numLemmings
      let currentHash := hashCiphertexts s currentCts
      if currentHash ≠ context.stateHash then .error .StateMismatch
      else if proofOk = false then .error .InvalidProof
      else
        match decodeFrom cl 0 numLemmings with
        | .error e => .error e
        | .ok triples =>
            .ok ({ s with
                    decryptionContexts :=
                      (reqId, { context with processed := true }) ::
                        s.decryptionContexts },
                 triples)

/-- One external transaction against the contract, with the environment
data (`msg.sender`, `block.timestamp`, the oracle-assigned request id, the
oracle proof verdict) as fields. -/
inductive Op where
  | transferOwnership (sender newOwner : Nat)
  | addProvider (sender p : Nat)
  | removeProvider (sender p : Nat)
  | setPaused (sender : Nat) (b : Bool)
  | setCooldownSeconds (sender n : Nat)
  | openBatch (sender : Nat)
  | closeBatch (sender b : Nat)
  | submitLemming (sender now batchId a x y : Nat)
  | requestBatchDecryption (sender now batchId reqId : Nat)
  | myCallback (reqId : Nat) (cl : List Nat) (proofOk : Bool)

/-- Execute one transaction: the new storage on success, the revert error
otherwise. -/
def execOp (s : State) : Op → Except Err State
  | .transferOwnership sender n => transferOwnership s sender n
  | .addProvider sender p => addProvider s sender p
  | .removeProvider sender p => removeProvider s sender p
  | .setPaused sender b => setPaused s sender b
  | .setCooldownSeconds sender n => setCooldownSeconds s sender n
  | .openBatch sender => openBatch s sender
  | .closeBatch sender b => closeBatch s sender b
  | .submitLemming sender now b a x y => submitLemming s sender now b a x y
  | .requestBatchDecryption sender now b r =>
      requestBatchDecryption s sender now b r
  | .myCallback r cl p => (myCallback s r cl p).map Prod.fst

/-- EVM transaction semantics: a revert rolls all writes back, so the
post-state of a failed transaction is the pre-state. -/
def applyOp (s : State) (op : Op) : State :=
  match execOp s op with
  | .ok s' => s'
  | .error _ => s

/-- Apply a sequence of transactions (failed ones revert). -/
def runOps (s : State) : List Op → State
  | [] => s
  | op :: rest => runOps (applyOp s op) rest

/-- States reachable from deployment by any sequence of transactions. -/
inductive Reach : State → Prop
  | init (deployer thisAddr : Nat) : Reach (initState deployer thisAddr)
  | step {s : State} (op : Op) {s' : State} :
      Reach s → execOp s op = .ok s' → Reach s'

/-- Does this transaction record a decryption context under request id `r`?
Only `requestBatchDecryption` with that oracle-assigned id does. -/
def registersId (r : Nat) : Op → Bool
  | .requestBatchDecryption _ _ _ rid => rid == r
  | _ => false

/-- Batch 0 is never open, never holds records, and record ids within any
batch are exactly the dense range `1..recordCount`. -/
def Inv (s : State) : Prop :=
  s.isBatchOpen 0 = false ∧ s.lemmingCountInBatch 0 = 0 ∧
    ∀ b i, (s.lemmings b i).isSome = true ↔ 1 ≤ i ∧ i ≤ s.lemmingCountInBatch b

/-- The `(ability, x, y)` triple decoded from the three consecutive 32-byte
words starting at byte offset `idx`. -/
def tripleAt (cl : List Nat) (idx : Nat) : Nat × Nat × Nat :=
  (decode32 ((cl.drop idx).take 32), decode32 ((cl.drop (idx + 32)).take 32),
    decode32 ((cl.drop (idx + 64)).take 32))

/-- Did the transaction succeed? -/
def isOk {α : Type} : Except Err α → Bool
  | .ok _ => true
  | .error _ => false

/-! ### Concrete scenario states (used to instantiate the theorems) -/

/-- Deployment by address 0, contract address 7. -/
def sInit : State := initState 0 7

/-- Owner added provider 5, opened batch 1, and provider 5 submitted one
lemming with handles `(10, 11, 12)`. -/
def sBase : State :=
  runOps sInit
    [.addProvider 0 5, .openBatch 0, .submitLemming 5 0 1 10 11 12]

/-- ... then the owner requested decryption of batch 1 and the oracle
assigned request id 42. -/
def sReq : State := applyOp sBase (.requestBatchDecryption 0 0 1 42)

/-- ... then provider 5 submitted one more lemming to the still-open
batch 1 before the callback arrived. -/
def sDrift : State := applyOp sReq (.submitLemming 5 0 1 20 21 22)

/-- A well-formed cleartext payload for one record: 3 × 32 zero bytes. -/
def clOk : List Nat := List.replicate 96 0

/-- An over-long cleartext payload: 97 bytes where 96 are expected. -/
def clLong : List Nat := List.replicate 97 0

/-- ... the oracle called back on `sReq` with a valid payload and proof, and
the request was finalized. -/
def sDone : State := applyOp sReq (.myCallback 42 clOk true)

/-- Owner opened batch 1 and then paused the contract. -/
def sPausedDemo : State := runOps sInit [.openBatch 0, .setPaused 0 true]

/-- Owner added provider 5, set a 60-second cooldown and opened batch 1;
provider 5 has never submitted. -/
def sCool : State :=
  runOps sInit [.addProvider 0 5, .setCooldownSeconds 0 60, .openBatch 0]

/-- ... provider 5's first successful submission, at `t = 60`. -/
def sCoolB : State := applyOp sCool (.submitLemming 5 60 1 1 2 3)

/-! ### Success-shape lemmas: what each operation's `.ok` result is -/

theorem transferOwnership_ok {s : State} {sender n : Nat} {s' : State}
    (h : transferOwnership s sender n = .ok s') :
    sender = s.owner ∧ s' = { s with owner := n } := by
  unfold transferOwnership at h
  split at h
  · simp at h
  · rename_i hs
    injection h with h
    exact ⟨not_not.mp hs, h.symm⟩

theorem addProvider_ok {s : State} {sender p : Nat} {s' : State}
    (h : addProvider s sender p = .ok s') :
    sender = s.owner ∧ s' = { s with isProvider := upd s.isProvider p true } := by
  unfold addProvider at h
  split at h
  · simp at h
  · rename_i hs
    injection h with h
    exact ⟨not_not.mp hs, h.symm⟩

theorem removeProvider_ok {s : State} {sender p : Nat} {s' : State}
    (h : removeProvider s sender p = .ok s') :
    sender = s.owner ∧ s' = { s with isProvider := upd s.isProvider p false } := by
  unfold removeProvider at h
  split at h
  · simp at h
  · rename_i hs
    injection h with h
    exact ⟨not_not.mp hs, h.symm⟩

theorem setPaused_ok {s : State} {sender : Nat} {b : Bool} {s' : State}
    (h : setPaused s sender b = .ok s') :
    sender = s.owner ∧ s' = { s with paused := b } := by
  unfold setPaused at h
  split at h
  · simp at h
  · rename_i hs
    injection h with h
    exact ⟨not_not.mp hs, h.symm⟩

theorem setCooldownSeconds_ok {s : State} {sender n : Nat} {s' : State}
    (h : setCooldownSeconds s sender n = .ok s') :
    sender = s.owner ∧ s' = { s with cooldownSeconds := n } := by
  unfold setCooldownSeconds at h
  split at h
  · simp at h
  · rename_i hs
    injection h with h
    exact ⟨not_not.mp hs, h.symm⟩

theorem openBatch_ok {s : State} {sender : Nat} {s' : State}
    (h : openBatch s sender = .ok s') :
    sender = s.owner ∧ s.paused = false ∧
      s' = { s with
        currentBatchId := s.currentBatchId + 1
        isBatchOpen := upd s.isBatchOpen (s.currentBatchId + 1) true } := by
  unfold openBatch at h
  split at h
  · simp at h
  · rename_i hs
    split at h
    · simp at h
    · rename_i hp
      injection h with h
      exact ⟨not_not.mp hs, by simpa using hp, h.symm⟩

theorem closeBatch_ok {s : State} {sender b : Nat} {s' : State}
    (h : closeBatch s sender b = .ok s') :
    sender = s.owner ∧ s.isBatchOpen b = true ∧
      s' = { s with isBatchOpen := upd s.isBatchOpen b false } := by
  unfold closeBatch at h
  split at h
  · simp at h
  · rename_i hs
    split at h
    · simp at h
    · rename_i hb
      injection h with h
      refine ⟨not_not.mp hs, ?_, h.symm⟩
      cases hb2 : s.isBatchOpen b
      · exact absurd hb2 hb
      · rfl

theorem submitLemming_ok {s : State} {sender now b a x y : Nat} {s' : State}
    (h : submitLemming s sender now b a x y = .ok s') :
    s.isProvider sender = true ∧ s.paused = false ∧
      s.lastSubmissionTime sender + s.cooldownSeconds ≤ now ∧
      s.isBatchOpen b = true ∧
      s' = { s with
        lemmingCountInBatch :=
          upd s.lemmingCountInBatch b (s.lemmingCountInBatch b + 1)
        lemmings := upd2 s.lemmings b (s.lemmingCountInBatch b + 1) ⟨a, x, y⟩
        lastSubmissionTime := upd s.lastSubmissionTime sender now } := by
  unfold submitLemming at h
  split at h
  · simp at h
  · rename_i h1
    split at h
    · simp at h
    · rename_i h2
      split at h
      · simp at h
      · rename_i h3
        split at h
        · simp at h
        · rename_i h4
          injection h with h
          refine ⟨?_, by simpa using h2, Nat.not_lt.mp h3, ?_, h.symm⟩
          · cases hb : s.isProvider sender
            · exact absurd hb h1
            · rfl
          · cases hb : s.isBatchOpen b
            · exact absurd hb h4
            · rfl

theorem requestBatchDecryption_ok {s : State} {sender now b r : Nat} {s' : State}
    (h : requestBatchDecryption s sender now b r = .ok s') :
    sender = s.owner ∧ s.paused = false ∧
      s.lastDecryptionRequestTime sender + s.cooldownSeconds ≤ now ∧
      s.lemmingCountInBatch b ≠ 0 ∧
      s' = { s with
        decryptionContexts :=
          (r, { batchId := b
                stateHash :=
                  hashCiphertexts s (ctsUpTo s b (s.lemmingCountInBatch b))
                processed := false }) :: s.decryptionContexts
        lastDecryptionRequestTime :=
          upd s.lastDecryptionRequestTime sender now } := by
  unfold requestBatchDecryption at h
  split at h
  · simp at h
  · rename_i h1
    split at h
    · simp at h
    · rename_i h2
      split at h
      · simp at h
      · rename_i h3
        split at h
        · simp at h
        · rename_i h4
          injection h with h
          exact ⟨not_not.mp h1, by simpa using h2, Nat.not_lt.mp h3, h4, h.symm⟩

/-- `myCallback` with the source's local variables inlined, for stepwise
case analysis. -/
theorem myCallback_eq (s : State) (r : Nat) (cl : List Nat) (p : Bool) :
    myCallback s r cl p =
      if (getContext s r).processed = true then .error .ReplayAttempt
      else if s.lemmingCountInBatch (getContext s r).batchId = 0 then
        .error .InvalidBatchId
      else if hashCiphertexts s
          (ctsUpTo s (getContext s r).batchId
            (s.lemmingCountInBatch (getContext s r).batchId)) ≠
          (getContext s r).stateHash then .error .StateMismatch
      else if p = false then .error .InvalidProof
      else
        match decodeFrom cl 0 (s.lemmingCountInBatch (getContext s r).batchId) with
        | .error e => .error e
        | .ok triples =>
            .ok ({ s with
                    decryptionContexts :=
                      (r, { getContext s r with processed := true }) ::
                        s.decryptionContexts },
                 triples) := rfl

theorem myCallback_ok {s : State} {r : Nat} {cl : List Nat} {p : Bool}
    {s' : State} {res : List (Nat × Nat × Nat)}
    (h : myCallback s r cl p = .ok (s', res)) :
    (getContext s r).processed = false ∧
      s.lemmingCountInBatch (getContext s r).batchId ≠ 0 ∧
      hashCiphertexts s
          (ctsUpTo s (getContext s r).batchId
            (s.lemmingCountInBatch (getContext s r).batchId)) =
        (getContext s r).stateHash ∧
      p = true ∧
      decodeFrom cl 0 (s.lemmingCountInBatch (getContext s r).batchId) = .ok res ∧
      s' = { s with
        decryptionContexts :=
          (r, { getContext s r with processed := true }) ::
            s.decryptionContexts } := by
  rw [myCallback_eq] at h
  by_cases h1 : (getContext s r).processed = true
  · rw [if_pos h1] at h; simp at h
  rw [if_neg h1] at h
  by_cases h2 : s.lemmingCountInBatch (getContext s r).batchId = 0
  · rw [if_pos h2] at h; simp at h
  rw [if_neg h2] at h
  by_cases h3 : hashCiphertexts s
      (ctsUpTo s (getContext s r).batchId
        (s.lemmingCountInBatch (getContext s r).batchId)) ≠
      (getContext s r).stateHash
  · rw [if_pos h3] at h; simp at h
  rw [if_neg h3] at h
  by_cases h4 : p = false
  · rw [if_pos h4] at h; simp at h
  rw [if_neg h4] at h
  cases hdec : decodeFrom cl 0 (s.lemmingCountInBatch (getContext s r).batchId) with
  | error e => rw [hdec] at h; simp at h
  | ok triples =>
      rw [hdec] at h
      simp only [Except.ok.injEq, Prod.mk.injEq] at h
      refine ⟨by simpa using h1, h2, not_not.mp h3, by simpa using h4, ?_, h.1.symm⟩
      rw [h.2]

/-! ### Error-side lemmas for the callback -/

theorem myCallback_replay {s : State} {r : Nat} (cl : List Nat) (p : Bool)
    (h : (getContext s r).processed = true) :
    myCallback s r cl p = .error .ReplayAttempt := by
  rw [myCallback_eq, if_pos h]

theorem myCallback_emptyBatch {s : State} {r : Nat} (cl : List Nat) (p : Bool)
    (h1 : (getContext s r).processed = false)
    (h2 : s.lemmingCountInBatch (getContext s r).batchId = 0) :
    myCallback s r cl p = .error .InvalidBatchId := by
  rw [myCallback_eq, if_neg (by simp [h1]), if_pos h2]

theorem myCallback_mismatch {s : State} {r : Nat} (cl : List Nat) (p : Bool)
    (h1 : (getContext s r).processed = false)
    (h2 : s.lemmingCountInBatch (getContext s r).batchId ≠ 0)
    (h3 : hashCiphertexts s
        (ctsUpTo s (getContext s r).batchId
          (s.lemmingCountInBatch (getContext s r).batchId)) ≠
        (getContext s r).stateHash) :
    myCallback s r cl p = .error .StateMismatch := by
  rw [myCallback_eq, if_neg (by simp [h1]), if_neg h2, if_pos h3]

/-! ### Transaction-level lemmas -/

theorem applyOp_of_error {s : State} {op : Op} {e : Err}
    (h : execOp s op = .error e) : applyOp s op = s := by
  unfold applyOp
  rw [h]

theorem execOp_myCallback_ok {s : State} {r : Nat} {cl : List Nat} {p : Bool}
    {s' : State} (h : execOp s (.myCallback r cl p) = .ok s') :
    ∃ res, myCallback s r cl p = .ok (s', res) := by
  simp only [execOp] at h
  cases hmc : myCallback s r cl p with
  | error e => rw [hmc] at h; simp [Except.map] at h
  | ok pr =>
      rw [hmc] at h
      simp only [Except.map, Except.ok.injEq] at h
      exact ⟨pr.2, by rw [← h]⟩

theorem execOp_myCallback_error {s : State} {r : Nat} {cl : List Nat}
    {p : Bool} {e : Err} (h : myCallback s r cl p = .error e) :
    execOp s (.myCallback r cl p) = .error e := by
  simp only [execOp, h, Except.map]

theorem upd_same {α : Type} (f : Nat → α) (k : Nat) (v : α) : upd f k v k = v := by
  simp [upd]

theorem upd_ne {α : Type} (f : Nat → α) (k : Nat) (v : α) {k' : Nat}
    (h : k' ≠ k) : upd f k v k' = f k' := by
  simp [upd, h]

/-- No operation ever decreases any batch's record count. -/
theorem count_mono {s : State} {op : Op} {s' : State}
    (h : execOp s op = .ok s') :
    ∀ b, s.lemmingCountInBatch b ≤ s'.lemmingCountInBatch b := by
  intro b
  cases op with
  | transferOwnership sender n =>
      obtain ⟨-, rfl⟩ := transferOwnership_ok h; exact le_refl _
  | addProvider sender p =>
      obtain ⟨-, rfl⟩ := addProvider_ok h; exact le_refl _
  | removeProvider sender p =>
      obtain ⟨-, rfl⟩ := removeProvider_ok h; exact le_refl _
  | setPaused sender bb =>
      obtain ⟨-, rfl⟩ := setPaused_ok h; exact le_refl _
  | setCooldownSeconds sender n =>
      obtain ⟨-, rfl⟩ := setCooldownSeconds_ok h; exact le_refl _
  | openBatch sender =>
      obtain ⟨-, -, rfl⟩ := openBatch_ok h; exact le_refl _
  | closeBatch sender bb =>
      obtain ⟨-, -, rfl⟩ := closeBatch_ok h; exact le_refl _
  | submitLemming sender now bb a x y =>
      obtain ⟨-, -, -, -, rfl⟩ := submitLemming_ok h
      show s.lemmingCountInBatch b ≤ upd s.lemmingCountInBatch bb _ b
      unfold upd
      split
      · rename_i hb; subst hb; exact Nat.le_succ _
      · exact le_refl _
  | requestBatchDecryption sender now bb r =>
      obtain ⟨-, -, -, -, rfl⟩ := requestBatchDecryption_ok h; exact le_refl _
  | myCallback r cl p =>
      obtain ⟨res, hmc⟩ := execOp_myCallback_ok h
      obtain ⟨-, -, -, -, -, rfl⟩ := myCallback_ok hmc; exact le_refl _

/-- Once `processed[r]` is true it stays true under any transaction that
does not register a fresh context under `r` (per the spec, oracle-assigned
ids are unique, so a finalized id is never re-registered). -/
theorem processed_mono {s : State} {r : Nat} {op : Op}
    (h : (getContext s r).processed = true)
    (hreg : registersId r op = false) :
    (getContext (applyOp s op) r).processed = true := by
  unfold applyOp
  cases hex : execOp s op with
  | error e => exact h
  | ok s' =>
      cases op with
      | transferOwnership sender n =>
          obtain ⟨-, rfl⟩ := transferOwnership_ok hex; exact h
      | addProvider sender p =>
          obtain ⟨-, rfl⟩ := addProvider_ok hex; exact h
      | removeProvider sender p =>
          obtain ⟨-, rfl⟩ := removeProvider_ok hex; exact h
      | setPaused sender bb =>
          obtain ⟨-, rfl⟩ := setPaused_ok hex; exact h
      | setCooldownSeconds sender n =>
          obtain ⟨-, rfl⟩ := setCooldownSeconds_ok hex; exact h
      | openBatch sender =>
          obtain ⟨-, -, rfl⟩ := openBatch_ok hex; exact h
      | closeBatch sender bb =>
          obtain ⟨-, -, rfl⟩ := closeBatch_ok hex; exact h
      | submitLemming sender now bb a x y =>
          obtain ⟨-, -, -, -, rfl⟩ := submitLemming_ok hex; exact h
      | requestBatchDecryption sender now bb rid =>
          obtain ⟨-, -, -, -, rfl⟩ := requestBatchDecryption_ok hex
          have hne : (r == rid) = false := by
            simp only [registersId] at hreg
            simp only [beq_eq_false_iff_ne, ne_eq]
            intro hc
            rw [hc] at hreg
            simp at hreg
          show ((List.lookup r ((rid, _) :: s.decryptionContexts)).getD
            defaultContext).processed = true
          rw [List.lookup]
          simp only [hne]
          exact h
      | myCallback rid cl p =>
          obtain ⟨res, hmc⟩ := execOp_myCallback_ok hex
          obtain ⟨-, -, -, -, -, rfl⟩ := myCallback_ok hmc
          by_cases hr : r = rid
          · subst hr
            show ((List.lookup r ((r, _) :: s.decryptionContexts)).getD
              defaultContext).processed = true
            rw [List.lookup]
            simp
          · have hne : (r == rid) = false := by simpa using hr
            show ((List.lookup r ((rid, _) :: s.decryptionContexts)).getD
              defaultContext).processed = true
            rw [List.lookup]
            simp only [hne]
            exact h

/-- `processed_mono` over a transaction sequence. -/
theorem processed_mono_runOps {s : State} {r : Nat} {ops : List Op}
    (h : (getContext s r).processed = true)
    (hreg : ∀ op ∈ ops, registersId r op = false) :
    (getContext (runOps s ops) r).processed = true := by
  induction ops generalizing s with
  | nil => exact h
  | cons op rest ih =>
      exact ih (processed_mono h (hreg op (List.mem_cons_self op rest)))
        (fun o ho => hreg o (List.mem_cons_of_mem op ho))

/-! ### The reachability invariant -/

theorem inv_init (deployer thisAddr : Nat) : Inv (initState deployer thisAddr) := by
  refine ⟨rfl, rfl, ?_⟩
  intro b i
  simp only [initState, Option.isSome_none, Bool.false_eq_true, false_iff]
  omega

theorem inv_step {s : State} {op : Op} {s' : State} (hs : Inv s)
    (h : execOp s op = .ok s') : Inv s' := by
  cases op with
  | transferOwnership sender n =>
      obtain ⟨-, rfl⟩ := transferOwnership_ok h; exact hs
  | addProvider sender p =>
      obtain ⟨-, rfl⟩ := addProvider_ok h; exact hs
  | removeProvider sender p =>
      obtain ⟨-, rfl⟩ := removeProvider_ok h; exact hs
  | setPaused sender bb =>
      obtain ⟨-, rfl⟩ := setPaused_ok h; exact hs
  | setCooldownSeconds sender n =>
      obtain ⟨-, rfl⟩ := setCooldownSeconds_ok h; exact hs
  | openBatch sender =>
      obtain ⟨-, -, rfl⟩ := openBatch_ok h
      refine ⟨?_, hs.2.1, hs.2.2⟩
      show upd s.isBatchOpen (s.currentBatchId + 1) true 0 = false
      unfold upd
      split
      · rename_i h0; omega
      · exact hs.1
  | closeBatch sender bb =>
      obtain ⟨-, -, rfl⟩ := closeBatch_ok h
      refine ⟨?_, hs.2.1, hs.2.2⟩
      show upd s.isBatchOpen bb false 0 = false
      unfold upd
      split
      · rfl
      · exact hs.1
  | submitLemming sender now bb a x y =>
      obtain ⟨-, -, -, hopen, rfl⟩ := submitLemming_ok h
      have hb0 : bb ≠ 0 := by
        intro hc
        rw [hc] at hopen
        rw [hs.1] at hopen
        exact Bool.false_ne_true hopen
      refine ⟨hs.1, ?_, ?_⟩
      · show upd s.lemmingCountInBatch bb _ 0 = 0
        unfold upd
        split
        · rename_i h0; exact absurd h0.symm hb0
        · exact hs.2.1
      · intro b' i
        show (upd2 s.lemmings bb (s.lemmingCountInBatch bb + 1) ⟨a, x, y⟩ b' i).isSome
            = true ↔ 1 ≤ i ∧ i ≤ upd s.lemmingCountInBatch bb
              (s.lemmingCountInBatch bb + 1) b'
        unfold upd2
        by_cases hb : b' = bb
        · subst hb
          rw [upd_same, upd_same]
          by_cases hi : i = s.lemmingCountInBatch b' + 1
          · subst hi
            rw [upd_same]
            exact ⟨fun _ => ⟨by omega, by omega⟩, fun _ => rfl⟩
          · rw [upd_ne _ _ _ hi, hs.2.2 b' i]
            omega
        · rw [upd_ne _ _ _ hb, upd_ne _ _ _ hb]
          exact hs.2.2 b' i
  | requestBatchDecryption sender now bb r =>
      obtain ⟨-, -, -, -, rfl⟩ := requestBatchDecryption_ok h; exact hs
  | myCallback r cl p =>
      obtain ⟨res, hmc⟩ := execOp_myCallback_ok h
      obtain ⟨-, -, -, -, -, rfl⟩ := myCallback_ok hmc; exact hs

theorem reach_inv {s : State} (h : Reach s) : Inv s := by
  induction h with
  | init deployer thisAddr => exact inv_init deployer thisAddr
  | step op hr hok ih => exact inv_step ih hok

/-! ### Shape of the ciphertext walk and of the cleartext decode -/

theorem ctsUpTo_length (s : State) (b : Nat) : ∀ n, (ctsUpTo s b n).length = 3 * n := by
  intro n
  induction n with
  | zero => rfl
  | succ n ih =>
      unfold ctsUpTo
      rw [List.length_append, ih]
      simp
      omega

theorem decodeFrom_ok_of_length {cl : List Nat} :
    ∀ n idx, idx + 96 * n ≤ cl.length →
      decodeFrom cl idx n =
        .ok ((List.range n).map (fun i => tripleAt cl (idx + 96 * i))) := by
  intro n
  induction n with
  | zero => intro idx _; rfl
  | succ n ih =>
      intro idx hlen
      have h1 : idx + 32 ≤ cl.length := by omega
      have h2 : idx + 32 + 32 ≤ cl.length := by omega
      have h3 : idx + 64 + 32 ≤ cl.length := by omega
      unfold decodeFrom sliceBytes
      rw [if_pos h1, if_pos h2, if_pos h3]
      rw [ih (idx + 96) (by omega)]
      show Except.ok _ = Except.ok _
      rw [List.range_succ_eq_map, List.map_cons, List.map_map]
      refine congrArg Except.ok (congrArg₂ List.cons ?_ ?_)
      · show tripleAt cl idx = tripleAt cl (idx + 96 * 0)
        rw [Nat.mul_zero, Nat.add_zero]
      · refine List.map_congr_left ?_
        intro i _
        show tripleAt cl (idx + 96 + 96 * i) = tripleAt cl (idx + 96 * (i + 1))
        rw [Nat.mul_succ]
        ring_nf

theorem decodeFrom_error_of_short {cl : List Nat} :
    ∀ n idx, cl.length < idx + 96 * n → n ≠ 0 →
      decodeFrom cl idx n = .error .SliceOutOfBounds := by
  intro n
  induction n with
  | zero => intro idx _ hn; exact absurd rfl hn
  | succ n ih =>
      intro idx hlen _
      unfold decodeFrom sliceBytes
      by_cases h1 : idx + 32 ≤ cl.length
      · rw [if_pos h1]
        by_cases h2 : idx + 32 + 32 ≤ cl.length
        · rw [if_pos h2]
          by_cases h3 : idx + 64 + 32 ≤ cl.length
          · rw [if_pos h3]
            rw [ih (idx + 96) (by omega) (by omega)]
          · rw [if_neg h3]
        · rw [if_neg h2]
      · rw [if_neg h1]

/-- The demonstration state `sBase` is reachable from deployment. -/
theorem reach_sBase : Reach sBase :=
  Reach.step (.submitLemming 5 0 1 10 11 12)
    (Reach.step (.openBatch 0)
      (Reach.step (.addProvider 0 5) (Reach.init 0 7) rfl) rfl) rfl

/-! ### The claims -/

/-- C1: for every request id R, `processed[R]` transitions from false to
true at most once.  A callback on an already-processed id always fails with
`ReplayAttempt` and leaves the state unchanged; a successful callback
presupposes that the replay check, the commitment re-check and the proof
verification all succeeded, and only then records `processed = true`; and
after a successful finalize, every later callback with the same id — under
any transaction sequence that never re-registers that (oracle-unique) id —
fails with `ReplayAttempt` with the state unchanged, even with identical
valid cleartexts and proof. -/
theorem C1_processed_at_most_once (s : State) (r : Nat) (cl : List Nat) (p : Bool) :
    ((getContext s r).processed = true →
      execOp s (.myCallback r cl p) = .error .ReplayAttempt ∧
        applyOp s (.myCallback r cl p) = s) ∧
    (∀ s' res, myCallback s r cl p = .ok (s', res) →
      (getContext s r).processed = false ∧ p = true ∧
        hashCiphertexts s
            (ctsUpTo s (getContext s r).batchId
              (s.lemmingCountInBatch (getContext s r).batchId)) =
          (getContext s r).stateHash ∧
        s.lemmingCountInBatch (getContext s r).batchId ≠ 0 ∧
        (getContext s' r).processed = true) ∧
    (∀ s' res ops cl' p', myCallback s r cl p = .ok (s', res) →
      (∀ op ∈ ops, registersId r op = false) →
      execOp (runOps s' ops) (.myCallback r cl' p') = .error .ReplayAttempt ∧
        applyOp (runOps s' ops) (.myCallback r cl' p') = runOps s' ops) := by
  refine ⟨?_, ?_, ?_⟩
  · intro h
    have hmc := myCallback_replay cl p h
    exact ⟨execOp_myCallback_error hmc,
      applyOp_of_error (execOp_myCallback_error hmc)⟩
  · intro s' res h
    obtain ⟨h1, h2, h3, h4, h5, rfl⟩ := myCallback_ok h
    refine ⟨h1, h4, h3, h2, ?_⟩
    simp [getContext, List.lookup]
  · intro s' res ops cl' p' h hops
    obtain ⟨h1, h2, h3, h4, h5, rfl⟩ := myCallback_ok h
    have hproc : (getContext { s with
        decryptionContexts :=
          (r, { getContext s r with processed := true }) ::
            s.decryptionContexts } r).processed = true := by
      simp [getContext, List.lookup]
    have hrun := processed_mono_runOps hproc hops
    have hmc := myCallback_replay cl' p' hrun
    exact ⟨execOp_myCallback_error hmc,
      applyOp_of_error (execOp_myCallback_error hmc)⟩

theorem C1_witness :
    execOp (runOps sDone []) (.myCallback 42 clOk true) = .error .ReplayAttempt :=
  ((C1_processed_at_most_once sReq 42 clOk true).2.2 sDone [(0, 0, 0)] [] clOk
    true rfl (by simp)).1

/-- C2: if one more record is submitted to the same still-open batch
between a successful `requestBatchDecryption` and the callback, the
callback fails with `StateMismatch` (the recomputed commitment differs from
the stored one — the ciphertext list even has a different length) and no
state is mutated. -/
theorem C2_state_drift_rejected (s s1 s2 : State)
    (sender now b reqId sender' now' a x y : Nat) (cl : List Nat) (p : Bool)
    (hreq : requestBatchDecryption s sender now b reqId = .ok s1)
    (hsub : submitLemming s1 sender' now' b a x y = .ok s2) :
    myCallback s2 reqId cl p = .error .StateMismatch ∧
      applyOp s2 (.myCallback reqId cl p) = s2 := by
  obtain ⟨-, -, -, hN, hs1⟩ := requestBatchDecryption_ok hreq
  obtain ⟨-, -, -, -, hs2⟩ := submitLemming_ok hsub
  have hfield1 : s2.decryptionContexts =
      (reqId, { batchId := b
                stateHash :=
                  hashCiphertexts s (ctsUpTo s b (s.lemmingCountInBatch b))
                processed := false }) :: s.decryptionContexts := by
    rw [hs2, hs1]
  have hfield2 : s2.lemmingCountInBatch b = s.lemmingCountInBatch b + 1 := by
    rw [hs2, hs1]
    exact upd_same _ _ _
  have hthis : s2.thisAddr = s.thisAddr := by rw [hs2, hs1]
  have hctx : getContext s2 reqId =
      { batchId := b
        stateHash := hashCiphertexts s (ctsUpTo s b (s.lemmingCountInBatch b))
        processed := false } := by
    unfold getContext
    rw [hfield1, List.lookup]
    simp
  have h1 : (getContext s2 reqId).processed = false := by rw [hctx]
  have h2 : s2.lemmingCountInBatch (getContext s2 reqId).batchId ≠ 0 := by
    rw [hctx]
    show s2.lemmingCountInBatch b ≠ 0
    rw [hfield2]
    omega
  have h3 : hashCiphertexts s2
      (ctsUpTo s2 (getContext s2 reqId).batchId
        (s2.lemmingCountInBatch (getContext s2 reqId).batchId)) ≠
      (getContext s2 reqId).stateHash := by
    rw [hctx]
    show hashCiphertexts s2 (ctsUpTo s2 b (s2.lemmingCountInBatch b)) ≠
      hashCiphertexts s (ctsUpTo s b (s.lemmingCountInBatch b))
    unfold hashCiphertexts
    intro hc
    injection hc with hcts haddr
    have hlen := congrArg List.length hcts
    rw [ctsUpTo_length, ctsUpTo_length, hfield2] at hlen
    omega
  have hmc := myCallback_mismatch cl p h1 h2 h3
  exact ⟨hmc, applyOp_of_error (execOp_myCallback_error hmc)⟩

theorem C2_witness : myCallback sDrift 42 [] true = .error .StateMismatch :=
  (C2_state_drift_rejected sBase sReq sDrift 0 0 1 42 5 0 20 21 22 [] true
    rfl rfl).1

/-- C3, counterexample: at a reachable state where request id 5 was never
recorded, `myCallback` fails with `InvalidBatchId`, not with the
`UnknownRequest` the claim names (the code has no `UnknownRequest` error at
all and performs no absence check as a first step). -/
theorem C3_counterexample :
    List.lookup 5 sInit.decryptionContexts = none ∧
      execOp sInit (.myCallback 5 [] true) = .error .InvalidBatchId ∧
      Err.InvalidBatchId ≠ Err.UnknownRequest :=
  ⟨rfl, rfl, by decide⟩

/-- C3, amended: for every request id with no recorded context, the
callback reads the zero default context, so the replay check passes
(`processed = false`) and the call then fails with `InvalidBatchId` —
before the commitment re-check and before proof verification (the outcome
is independent of `cleartexts` and of the proof verdict). -/
theorem C3_unknown_request_rejected (s : State) (r : Nat) (cl : List Nat)
    (p : Bool) (hs : Reach s)
    (hnone : List.lookup r s.decryptionContexts = none) :
    (getContext s r).processed = false ∧
      execOp s (.myCallback r cl p) = .error .InvalidBatchId ∧
      applyOp s (.myCallback r cl p) = s := by
  have hctx : getContext s r = defaultContext := by
    unfold getContext
    rw [hnone]
    rfl
  have h1 : (getContext s r).processed = false := by rw [hctx]; rfl
  have h2 : s.lemmingCountInBatch (getContext s r).batchId = 0 := by
    rw [hctx]
    exact (reach_inv hs).2.1
  have hmc := myCallback_emptyBatch cl p h1 h2
  exact ⟨h1, execOp_myCallback_error hmc,
    applyOp_of_error (execOp_myCallback_error hmc)⟩

theorem C3_witness :
    (getContext sInit 9).processed = false :=
  (C3_unknown_request_rejected sInit 9 [] false (Reach.init 0 7) rfl).1

/-- C4: every operation is all-or-nothing.  Whenever a transaction fails
with any error, the post-state equals the pre-state — in particular the
owner, the provider set, the pause flag, the cooldown configuration and
timestamps, the batch registry, the records and the decryption contexts
are exactly as before the call. -/
theorem C4_all_or_nothing (s : State) (op : Op) (e : Err)
    (h : execOp s op = .error e) :
    applyOp s op = s ∧
      (applyOp s op).owner = s.owner ∧
      (applyOp s op).isProvider = s.isProvider ∧
      (applyOp s op).paused = s.paused ∧
      (applyOp s op).cooldownSeconds = s.cooldownSeconds ∧
      (applyOp s op).lastSubmissionTime = s.lastSubmissionTime ∧
      (applyOp s op).lastDecryptionRequestTime = s.lastDecryptionRequestTime ∧
      (applyOp s op).currentBatchId = s.currentBatchId ∧
      (applyOp s op).isBatchOpen = s.isBatchOpen ∧
      (applyOp s op).decryptionContexts = s.decryptionContexts ∧
      (applyOp s op).lemmings = s.lemmings ∧
      (applyOp s op).lemmingCountInBatch = s.lemmingCountInBatch := by
  have h0 : applyOp s op = s := applyOp_of_error h
  rw [h0]
  exact ⟨rfl, rfl, rfl, rfl, rfl, rfl, rfl, rfl, rfl, rfl, rfl, rfl⟩

theorem C4_witness : applyOp sInit (.openBatch 99) = sInit :=
  (C4_all_or_nothing sInit (.openBatch 99) .NotOwner rfl).1

/-- C5, counterexample: while the contract is paused, the owner can still
close an open batch — `closeBatch` carries no pause guard — so "every
mutating operation except administrative unpause is rejected while paused"
is false. -/
theorem C5_counterexample :
    sPausedDemo.paused = true ∧
      execOp sPausedDemo (.closeBatch 0 1) =
        .ok { sPausedDemo with
              isBatchOpen := upd sPausedDemo.isBatchOpen 1 false } :=
  ⟨rfl, rfl⟩

/-- C5, amended: the pause flag gates exactly `openBatch`, `submitLemming`
and `requestBatchDecryption` (each fails with `PausedState` while paused);
the owner-only administrative operations — `transferOwnership`,
`addProvider`, `removeProvider`, `setCooldownSeconds`, `closeBatch` and
`setPaused` itself (including unpause) — carry no pause guard and remain
available while paused. -/
theorem C5_pause_gates_only_three (s : State) (hp : s.paused = true) :
    execOp s (.openBatch s.owner) = .error .PausedState ∧
    (∀ sender now b a x y, s.isProvider sender = true →
      execOp s (.submitLemming sender now b a x y) = .error .PausedState) ∧
    (∀ now b rid,
      execOp s (.requestBatchDecryption s.owner now b rid) =
        .error .PausedState) ∧
    (∀ n, execOp s (.transferOwnership s.owner n) = .ok { s with owner := n }) ∧
    (∀ pr, execOp s (.addProvider s.owner pr) =
      .ok { s with isProvider := upd s.isProvider pr true }) ∧
    (∀ pr, execOp s (.removeProvider s.owner pr) =
      .ok { s with isProvider := upd s.isProvider pr false }) ∧
    (∀ n, execOp s (.setCooldownSeconds s.owner n) =
      .ok { s with cooldownSeconds := n }) ∧
    (∀ b, s.isBatchOpen b = true →
      execOp s (.closeBatch s.owner b) =
        .ok { s with isBatchOpen := upd s.isBatchOpen b false }) ∧
    execOp s (.setPaused s.owner false) = .ok { s with paused := false } := by
  refine ⟨?_, ?_, ?_, ?_, ?_, ?_, ?_, ?_, ?_⟩
  · simp [execOp, openBatch, hp]
  · intro sender now b a x y hprov
    simp [execOp, submitLemming, hprov, hp]
  · intro now b rid
    simp [execOp, requestBatchDecryption, hp]
  · intro n
    simp [execOp, transferOwnership]
  · intro pr
    simp [execOp, addProvider]
  · intro pr
    simp [execOp, removeProvider]
  · intro n
    simp [execOp, setCooldownSeconds]
  · intro b hb
    simp [execOp, closeBatch, hb]
  · simp [execOp, setPaused]

theorem C5_witness :
    execOp sPausedDemo (.openBatch sPausedDemo.owner) = .error .PausedState :=
  (C5_pause_gates_only_three sPausedDemo rfl).1

/-- C6, counterexample: a cleartext payload longer than the expected
`3 × recordCount × 32` bytes is accepted — the decode loop reads only the
words it needs and nothing checks the exact length (the code also has no
`MalformedCleartexts` error) — so "fails whenever the byte length does not
match exactly" is false. -/
theorem C6_counterexample :
    sReq.lemmingCountInBatch 1 = 1 ∧ clLong.length = 97 ∧
      (97 : Nat) ≠ 3 * 1 * 32 ∧
      isOk (myCallback sReq 42 clLong true) = true :=
  ⟨rfl, rfl, by decide, rfl⟩

/-- C6, amended: once the callback reaches the decode step, it reads
exactly `3 × recordCount` consecutive 32-byte words, grouped as
`(ability, x, y)` triples in ascending recordId order; if `cleartexts` is
shorter than `3 × recordCount × 32` bytes, the call reverts with the
builtin out-of-range slice error (not a dedicated `MalformedCleartexts`,
which the code does not define); if it is at least that long, the call
succeeds and any extra bytes are ignored. -/
theorem C6_decode_exact_words (s : State) (r : Nat) (cl : List Nat) (p : Bool)
    (h1 : (getContext s r).processed = false)
    (h2 : s.lemmingCountInBatch (getContext s r).batchId ≠ 0)
    (h3 : hashCiphertexts s
        (ctsUpTo s (getContext s r).batchId
          (s.lemmingCountInBatch (getContext s r).batchId)) =
      (getContext s r).stateHash)
    (h4 : p = true) :
    (cl.length < 3 * s.lemmingCountInBatch (getContext s r).batchId * 32 →
      myCallback s r cl p = .error .SliceOutOfBounds) ∧
    (3 * s.lemmingCountInBatch (getContext s r).batchId * 32 ≤ cl.length →
      myCallback s r cl p =
        .ok ({ s with
                decryptionContexts :=
                  (r, { getContext s r with processed := true }) ::
                    s.decryptionContexts },
          (List.range (s.lemmingCountInBatch (getContext s r).batchId)).map
            (fun i => tripleAt cl (96 * i)))) := by
  constructor
  · intro hshort
    rw [myCallback_eq, if_neg (by simp [h1]), if_neg h2,
      if_neg (by simp [h3]), if_neg (by simp [h4]),
      decodeFrom_error_of_short _ 0 (by omega) h2]
  · intro hlong
    rw [myCallback_eq, if_neg (by simp [h1]), if_neg h2,
      if_neg (by simp [h3]), if_neg (by simp [h4]),
      decodeFrom_ok_of_length _ 0 (by omega)]
    simp

theorem C6_witness : myCallback sReq 42 [] true = .error .SliceOutOfBounds :=
  (C6_decode_exact_words sReq 42 [] true rfl (by decide) rfl rfl).1 (by decide)

/-- C7, counterexample: with a 60-second window configured and a provider
who has never submitted (stored timestamp still the default 0), the very
first `submitLemming` at `t = 0` fails with `CooldownActive` — so the
claim's concrete scenario "a submitter succeeding at t=0" is impossible
under the code's `now < lastActionTime + window` guard. -/
theorem C7_counterexample :
    sCool.cooldownSeconds = 60 ∧ sCool.lastSubmissionTime 5 = 0 ∧
      sCool.isProvider 5 = true ∧ sCool.paused = false ∧
      sCool.isBatchOpen 1 = true ∧
      execOp sCool (.submitLemming 5 0 1 1 2 3) = .error .CooldownActive :=
  ⟨rfl, rfl, rfl, rfl, rfl, rfl⟩

/-- C7, amended: the cooldown guard on `submitLemming` and
`requestBatchDecryption` fails with `CooldownActive` exactly when
`now - lastActionTime < window` (for `lastActionTime ≤ now`), leaving the
stored timestamp unmodified on any failure; on success the timestamp is
updated to `now`, and it is committed only with the whole operation.
Concretely, with a 60-second window a fresh submitter first succeeds at
`t = 60`; succeeding at `t = 60`, they fail with `CooldownActive` at
`t = 90` (record count unchanged) and succeed again at `t = 121`. -/
theorem C7_cooldown_guard (s s' : State)
    (sender now b a x y rid : Nat) (op : Op) (e : Err) :
    (s.isProvider sender = true → s.paused = false →
      s.lastSubmissionTime sender ≤ now →
      (submitLemming s sender now b a x y = .error .CooldownActive ↔
        now - s.lastSubmissionTime sender < s.cooldownSeconds)) ∧
    (sender = s.owner → s.paused = false →
      s.lastDecryptionRequestTime sender ≤ now →
      (requestBatchDecryption s sender now b rid = .error .CooldownActive ↔
        now - s.lastDecryptionRequestTime sender < s.cooldownSeconds)) ∧
    (submitLemming s sender now b a x y = .ok s' →
      s'.lastSubmissionTime sender = now) ∧
    (requestBatchDecryption s sender now b rid = .ok s' →
      s'.lastDecryptionRequestTime sender = now) ∧
    (execOp s op = .error e →
      (applyOp s op).lastSubmissionTime = s.lastSubmissionTime ∧
      (applyOp s op).lastDecryptionRequestTime = s.lastDecryptionRequestTime) ∧
    (isOk (execOp sCool (.submitLemming 5 60 1 1 2 3)) = true ∧
      execOp sCoolB (.submitLemming 5 90 1 4 5 6) = .error .CooldownActive ∧
      (applyOp sCoolB (.submitLemming 5 90 1 4 5 6)).lemmingCountInBatch 1 = 1 ∧
      isOk (execOp sCoolB (.submitLemming 5 121 1 4 5 6)) = true ∧
      (applyOp sCoolB (.submitLemming 5 121 1 4 5 6)).lemmingCountInBatch 1 = 2) := by
  refine ⟨?_, ?_, ?_, ?_, ?_, rfl, rfl, rfl, rfl, rfl⟩
  · intro hprov hpause hle
    unfold submitLemming
    rw [if_neg (by simp [hprov]), if_neg (by simp [hpause])]
    by_cases hcd : now < s.lastSubmissionTime sender + s.cooldownSeconds
    · rw [if_pos hcd]
      exact iff_of_true rfl (by omega)
    · rw [if_neg hcd]
      refine iff_of_false ?_ (by omega)
      split
      · simp
      · simp
  · intro howner hpause hle
    unfold requestBatchDecryption
    rw [if_neg (by simp [howner]), if_neg (by simp [hpause])]
    by_cases hcd : now < s.lastDecryptionRequestTime sender + s.cooldownSeconds
    · rw [if_pos hcd]
      exact iff_of_true rfl (by omega)
    · rw [if_neg hcd]
      refine iff_of_false ?_ (by omega)
      split
      · simp
      · simp
  · intro h
    obtain ⟨-, -, -, -, rfl⟩ := submitLemming_ok h
    exact upd_same _ _ _
  · intro h
    obtain ⟨-, -, -, -, rfl⟩ := requestBatchDecryption_ok h
    exact upd_same _ _ _
  · intro h
    rw [applyOp_of_error h]
    exact ⟨rfl, rfl⟩

theorem C7_witness : submitLemming sCoolB 5 90 1 4 5 6 = .error .CooldownActive :=
  ((C7_cooldown_guard sCoolB sCoolB 5 90 1 4 5 6 0 (.openBatch 0) .NotOwner).1
    rfl rfl (by decide)).mpr (by decide)

/-- C8: in every reachable state, record ids within a batch are exactly the
dense integers `1..recordCount`; no operation decreases any batch's record
count; a successful submission assigns id `recordCount + 1` to a previously
unassigned slot, bumps the count by one and leaves every earlier record
untouched; a closed batch rejects submissions with `BatchClosedOrInvalid`;
and closing a batch preserves its records, which remain decryptable
(`requestBatchDecryption` still succeeds on a closed non-empty batch). -/
theorem C8_dense_ids_monotone_count (s : State) (hs : Reach s) :
    (∀ b i, (s.lemmings b i).isSome = true ↔
      1 ≤ i ∧ i ≤ s.lemmingCountInBatch b) ∧
    (∀ op s', execOp s op = .ok s' →
      ∀ b, s.lemmingCountInBatch b ≤ s'.lemmingCountInBatch b) ∧
    (∀ sender now b a x y s', submitLemming s sender now b a x y = .ok s' →
      s'.lemmingCountInBatch b = s.lemmingCountInBatch b + 1 ∧
      s'.lemmings b (s.lemmingCountInBatch b + 1) = some ⟨a, x, y⟩ ∧
      s.lemmings b (s.lemmingCountInBatch b + 1) = none ∧
      ∀ i, i ≤ s.lemmingCountInBatch b → s'.lemmings b i = s.lemmings b i) ∧
    (∀ sender now b a x y, s.isBatchOpen b = false →
      s.isProvider sender = true → s.paused = false →
      s.lastSubmissionTime sender + s.cooldownSeconds ≤ now →
      submitLemming s sender now b a x y = .error .BatchClosedOrInvalid) ∧
    (∀ sender b s', closeBatch s sender b = .ok s' →
      s'.lemmings = s.lemmings ∧
      s'.lemmingCountInBatch = s.lemmingCountInBatch) ∧
    (∀ now b rid, s.isBatchOpen b = false → s.lemmingCountInBatch b ≠ 0 →
      s.paused = false →
      s.lastDecryptionRequestTime s.owner + s.cooldownSeconds ≤ now →
      isOk (requestBatchDecryption s s.owner now b rid) = true) := by
  refine ⟨(reach_inv hs).2.2, fun op s' h => count_mono h, ?_, ?_, ?_, ?_⟩
  · intro sender now b a x y s' h
    obtain ⟨-, -, -, -, rfl⟩ := submitLemming_ok h
    refine ⟨upd_same _ _ _, ?_, ?_, ?_⟩
    · show upd2 s.lemmings b (s.lemmingCountInBatch b + 1) ⟨a, x, y⟩ b
        (s.lemmingCountInBatch b + 1) = some ⟨a, x, y⟩
      unfold upd2
      rw [upd_same, upd_same]
    · have hd := (reach_inv hs).2.2 b (s.lemmingCountInBatch b + 1)
      cases hopt : s.lemmings b (s.lemmingCountInBatch b + 1) with
      | none => rfl
      | some l =>
          exfalso
          have := hd.mp (by rw [hopt]; rfl)
          omega
    · intro i hi
      show upd2 s.lemmings b (s.lemmingCountInBatch b + 1) ⟨a, x, y⟩ b i =
        s.lemmings b i
      unfold upd2
      rw [upd_same, upd_ne _ _ _ (by omega)]
  · intro sender now b a x y hclosed hprov hpause hcd
    unfold submitLemming
    rw [if_neg (by simp [hprov]), if_neg (by simp [hpause]),
      if_neg (Nat.not_lt.mpr hcd), if_pos hclosed]
  · intro sender b s' h
    obtain ⟨-, -, rfl⟩ := closeBatch_ok h
    exact ⟨rfl, rfl⟩
  · intro now b rid hclosed hN hpause hcd
    unfold requestBatchDecryption
    rw [if_neg (by simp), if_neg (by simp [hpause]),
      if_neg (Nat.not_lt.mpr hcd), if_neg hN]
    rfl

theorem C8_witness :
    (sBase.lemmings 1 1).isSome = true ↔
      1 ≤ 1 ∧ 1 ≤ sBase.lemmingCountInBatch 1 :=
  (C8_dense_ids_monotone_count sBase reach_sBase).1 1 1

/-- C9 (implicit): when the cooldown window is some `w > now`, a principal
whose stored last-action timestamp is still the default 0 — one who has
never performed the action — is rejected with `CooldownActive` on their
very first `submitLemming` or `requestBatchDecryption` at any `now < w`,
because the guard compares `now < lastActionTime + window` without
distinguishing a never-acted principal from one who acted at time 0. -/
theorem C9_fresh_principal_cooldown (s : State) (sender now b a x y rid : Nat)
    (hw : now < s.cooldownSeconds) :
    (s.isProvider sender = true → s.paused = false →
      s.lastSubmissionTime sender = 0 →
      submitLemming s sender now b a x y = .error .CooldownActive) ∧
    (sender = s.owner → s.paused = false →
      s.lastDecryptionRequestTime sender = 0 →
      requestBatchDecryption s sender now b rid = .error .CooldownActive) := by
  constructor
  · intro hprov hpause h0
    unfold submitLemming
    rw [if_neg (by simp [hprov]), if_neg (by simp [hpause]),
      if_pos (by rw [h0]; omega)]
  · intro howner hpause h0
    unfold requestBatchDecryption
    rw [if_neg (by simp [howner]), if_neg (by simp [hpause]),
      if_pos (by rw [h0]; omega)]

theorem C9_witness :
    submitLemming sCool 5 30 1 1 2 3 = .error .CooldownActive :=
  (C9_fresh_principal_cooldown sCool 5 30 1 1 2 3 0 (by decide)).1 rfl rfl rfl

/-- C10 (implicit): in every reachable state, batch 0 is never open and
holds no records (ids start at 1 because `openBatch` increments before
opening); consequently a callback whose request id was never recorded reads
the zero default context (`batchId = 0`, `processed = false`) and reverts
with `InvalidBatchId` before proof verification (independently of
`cleartexts` and the proof verdict), leaving all state unchanged. -/
theorem C10_batch_zero_unreachable (s : State) (hs : Reach s) :
    s.isBatchOpen 0 = false ∧ s.lemmingCountInBatch 0 = 0 ∧
      ∀ r cl p, List.lookup r s.decryptionContexts = none →
        getContext s r = defaultContext ∧
        execOp s (.myCallback r cl p) = .error .InvalidBatchId ∧
        applyOp s (.myCallback r cl p) = s := by
  have hinv := reach_inv hs
  refine ⟨hinv.1, hinv.2.1, ?_⟩
  intro r cl p hnone
  have hctx : getContext s r = defaultContext := by
    unfold getContext
    rw [hnone]
    rfl
  have h1 : (getContext s r).processed = false := by rw [hctx]; rfl
  have h2 : s.lemmingCountInBatch (getContext s r).batchId = 0 := by
    rw [hctx]
    exact hinv.2.1
  have hmc := myCallback_emptyBatch cl p h1 h2
  exact ⟨hctx, execOp_myCallback_error hmc,
    applyOp_of_error (execOp_myCallback_error hmc)⟩

theorem C10_witness : sBase.isBatchOpen 0 = false :=
  (C10_batch_zero_unreachable sBase reach_sBase).1

end LemmingsFHE
